import Mathlib

/-
Shallow embedding of `qa.py` from the wikiqabot repository.

The program is a command-line chat agent.  The parts modelled here are the
ones the specification's claims are about:

* the Wikidata JSON helpers `get_label` (qa.py lines 66-82) and
  `get_prop_value` (lines 85-114), modelled over an explicit JSON value type
  with Python's subscripting/`in`/`+=` semantics, including which exception
  each operation raises (`except KeyError` catches only `KeyError`);
* the similarity ranker `cos_sim` (lines 172-173) and `get_topn_similar`
  (lines 176-190), modelled over exact rationals with the embedding model
  `embedding_model.encode` abstracted as a parameter `emb : String → List ℚ`;
* the prompt construction in `generate` (lines 159-163);
* the dialogue-history handling of the interactive loop (lines 222-245).

Remote HTTP responses are abstracted as functions from the queried entity id
to the parsed JSON value of the response body.
-/

/-! ### JSON values and Python-style operations -/

/-- A parsed JSON value, as produced by `requests.get(...).json()`. -/
inductive JVal where
  | jstr : String → JVal
  | jnum : Int → JVal
  | jbool : Bool → JVal
  | jnull : JVal
  | jarr : List JVal → JVal
  | jobj : List (String × JVal) → JVal

/-- The Python exceptions that the modelled operations can raise.  The
distinction matters because `get_prop_value` catches only `KeyError`. -/
inductive PyErr where
  | keyError
  | indexError
  | typeError
  | attrError
deriving DecidableEq

/-- Key lookup in a JSON object (Python `dict` keys are unique; first match). -/
def lookupKey : List (String × JVal) → String → Option JVal
  | [], _ => none
  | (k, v) :: rest, key => if k = key then some v else lookupKey rest key

/-- Python `v[key]` with a string key: a missing dict key raises `KeyError`;
subscripting a string, list, number, bool or `None` with a string key raises
`TypeError`. -/
def JVal.index : JVal → String → Except PyErr JVal
  | .jobj kvs, key =>
    match lookupKey kvs key with
    | some v => .ok v
    | none => .error .keyError
  | _, _ => .error .typeError

/-- Python `v[i]` with an int index: out-of-range list access raises
`IndexError`; an int subscript on a dict whose keys are strings raises
`KeyError`; `s[i]` on a string yields a one-character string. -/
def JVal.indexNat : JVal → Nat → Except PyErr JVal
  | .jarr items, i =>
    match items.get? i with
    | some v => .ok v
    | none => .error .indexError
  | .jobj _, _ => .error .keyError
  | .jstr s, i =>
    match s.data.get? i with
    | some c => .ok (.jstr (String.mk [c]))
    | none => .error .indexError
  | _, _ => .error .typeError

/-- `needle` is an initial segment of `hay`. -/
def startsWithL : List Char → List Char → Bool
  | [], _ => true
  | _ :: _, [] => false
  | a :: as, b :: bs => a = b && startsWithL as bs

/-- `needle` occurs as a contiguous run somewhere in `hay`. -/
def occursIn (needle : List Char) : List Char → Bool
  | [] => needle.isEmpty
  | c :: rest => startsWithL needle (c :: rest) || occursIn needle rest

/-- Python's substring test `sub in s`. -/
def strContains (s sub : String) : Bool :=
  occursIn sub.data s.data

/-- Python `key in v`: on a dict it tests key membership, on a string it is a
substring test, on a list it is membership (a string is `==` only to an equal
string), and on a number/bool/`None` it raises `TypeError` (not iterable). -/
def JVal.hasKeyOrSub : JVal → String → Except PyErr Bool
  | .jobj kvs, key => .ok ((lookupKey kvs key).isSome)
  | .jstr s, key => .ok (strContains s key)
  | .jarr items, key =>
    .ok (items.any fun v =>
      match v with
      | .jstr t => t = key
      | _ => false)
  | _, _ => .error .typeError

/-- Python `x.lstrip("+")`: defined on strings (drops every leading `'+'`);
on any other value the attribute access raises `AttributeError`. -/
def lstripPlus : JVal → Except PyErr JVal
  | .jstr s => .ok (.jstr (String.mk (s.data.dropWhile fun c => c = '+')))
  | _ => .error .attrError

/-- Using a JSON value where a Python `str` method (`.split`) is needed:
non-strings raise `AttributeError`. -/
def asStr : JVal → Except PyErr String
  | .jstr s => .ok s
  | _ => .error .attrError

/-! ### `get_label` (qa.py lines 66-82) -/

/-- Python `str.split("/")` on the underlying character list: the segments of
`s` between occurrences of `'/'` (empty segments included). -/
def splitSlash : List Char → List (List Char)
  | [] => [[]]
  | c :: rest =>
    if c = '/' then [] :: splitSlash rest
    else
      match splitSlash rest with
      | [] => [[c]]
      | r :: rs => (c :: r) :: rs

/-- Python `s.split("/")[-1]`: the text after the final `'/'`. -/
def lastSeg (s : List Char) : List Char :=
  (splitSlash s).getLastD []

/-- `entity = entity.split("/")[-1]` (qa.py line 75). -/
def normEntity (entity : String) : String :=
  String.mk (lastSeg entity.data)

/-- `get_label` (qa.py lines 66-82).  `lblResp e` is the parsed JSON response
of the `wbgetentities&ids=e&props=labels` request. -/
def get_label (lblResp : String → JVal) (entity : String) : Except PyErr JVal := do
  let e := normEntity entity
  let r ← (lblResp e).index "entities"
  let r ← r.index e
  let r ← r.index "labels"
  let r ← r.index "en"
  r.index "value"

/-! ### `get_prop_value` (qa.py lines 85-114) -/

/-- `result["entities"][entity]["claims"]` for the claims request of
`get_prop_value` (qa.py lines 90-96).  `entResp e` is the parsed JSON
response of the `wbgetentities&ids=e&props=claims` request. -/
def claimsNav (entResp : String → JVal) (entity : String) : Except PyErr JVal := do
  let r ← (entResp entity).index "entities"
  let r ← r.index entity
  r.index "claims"

/-- `result["entities"][entity]["claims"][prop][0]["mainsnak"]`
(qa.py line 96), the expression guarded by `try ... except KeyError`. -/
def firstClaimNav (entResp : String → JVal) (entity prop : String) :
    Except PyErr JVal := do
  let c ← claimsNav entResp entity
  let c ← c.index prop
  let c ← c.indexNat 0
  c.index "mainsnak"

/-- The `if/elif/elif/else` dispatch of qa.py lines 100-107 applied to
`v = claim["datavalue"]["value"]`:
`"amount" in v`, `"time" in v`, `"id" in v` tried in that order; every raised
exception here propagates (the surrounding function catches nothing at this
point). -/
def resolveValue (lblResp : String → JVal) (v : JVal) : Except PyErr JVal :=
  match v.hasKeyOrSub "amount" with
  | .error e => .error e
  | .ok true =>
    match v.index "amount" with
    | .error e => .error e
    | .ok a => lstripPlus a
  | .ok false =>
    match v.hasKeyOrSub "time" with
    | .error e => .error e
    | .ok true => v.index "time"
    | .ok false =>
      match v.hasKeyOrSub "id" with
      | .error e => .error e
      | .ok true =>
        match v.index "id" with
        | .error e => .error e
        | .ok idv =>
          match asStr idv with
          | .error e => .error e
          | .ok idStr => get_label lblResp idStr
      | .ok false => .ok v

/-- `try: value += " " + get_label(claim["datavalue"]["value"]["unit"])
except KeyError: pass` (qa.py lines 109-112).  A `KeyError` from the `"unit"`
subscript *or from inside `get_label`* is caught and the value is returned
unchanged; any other exception propagates, including the `TypeError` from
subscripting a non-dict value with `"unit"` or from concatenating a
non-string. -/
def unitSuffix (lblResp : String → JVal) (v value : JVal) :
    Except PyErr (Option JVal) :=
  match (v.index "unit").bind (fun u => (asStr u).bind fun uStr =>
      get_label lblResp uStr) with
  | .error .keyError => .ok (some value)
  | .error e => .error e
  | .ok lbl =>
    match lbl with
    | .jstr ls =>
      match value with
      | .jstr vs => .ok (some (.jstr (vs ++ " " ++ ls)))
      | _ => .error .typeError
    | _ => .error .typeError

/-- `get_prop_value` (qa.py lines 85-114).  Returning `ok none` models
Python's `return None` (the "not found" sentinel, produced only by the
`except KeyError` around line 96); `ok (some v)` models returning `v`;
`error e` models an uncaught exception. -/
def get_prop_value (entResp lblResp : String → JVal) (entity prop : String) :
    Except PyErr (Option JVal) :=
  match firstClaimNav entResp entity prop with
  | .error .keyError => .ok none
  | .error e => .error e
  | .ok claim =>
    match claim.index "datavalue" with
    | .error e => .error e
    | .ok dv =>
      match dv.index "value" with
      | .error e => .error e
      | .ok v =>
        match resolveValue lblResp v with
        | .error e => .error e
        | .ok value => unitSuffix lblResp v value

/-! ### The similarity ranker (qa.py lines 172-190)

`embedding_model.encode` is an opaque pretrained model; it is abstracted as a
parameter `emb : String → List ℚ`, and float arithmetic is idealised as exact
arithmetic.  In `get_topn_similar`, `anchor_emb` is the 1×d matrix
`[emb anchor]` and `inputs_emb` is the k×d matrix `inputs.map emb`. -/

/-- Dot product of two embedding vectors (`np.matmul` of a row with a
column). -/
def dotQ (a b : List ℚ) : ℚ :=
  ((a.zip b).map fun p => p.1 * p.2).sum

/-- Squared L2 norm of a vector; `np.linalg.norm a = Real.sqrt (normSq a)`. -/
def normSq (a : List ℚ) : ℚ :=
  dotQ a a

/-- Squared *Frobenius* norm of a matrix.  `np.linalg.norm` applied to a 2-D
array (as `cos_sim` does with `inputs_emb` on qa.py line 173) returns the
Frobenius norm of the whole matrix, i.e. `Real.sqrt (frobSq m)` — not the
row-wise vector norms. -/
def frobSq (m : List (List ℚ)) : ℚ :=
  (m.map normSq).sum

/-- `np.linalg.norm` of a single embedding vector (or of a 1×d matrix, whose
Frobenius norm is the same number). -/
noncomputable def normR (a : List ℚ) : ℝ :=
  Real.sqrt ((normSq a : ℚ) : ℝ)

/-- `cos_sim` (qa.py lines 172-173) on two vectors:
`np.matmul(a, b.T) / (np.linalg.norm(a) * np.linalg.norm(b))`. -/
noncomputable def cos_sim (a b : List ℚ) : ℝ :=
  ((dotQ a b : ℚ) : ℝ) / (normR a * normR b)

/-- The exact value of the float score that `get_topn_similar` computes for
candidate `s` of `inputs` (one entry of
`cos_sim(anchor_emb, inputs_emb)`, qa.py line 187): the denominator uses the
Frobenius norm of the *whole* candidate matrix, so it is one constant shared
by every candidate. -/
noncomputable def scoreR (emb : String → List ℚ) (anchor : String)
    (inputs : List String) (s : String) : ℝ :=
  ((dotQ (emb anchor) (emb s) : ℚ) : ℝ) /
    (normR (emb anchor) * Real.sqrt ((frobSq (inputs.map emb) : ℚ) : ℝ))

/-- The comparison used by `sorted(similarities, key=lambda s: -s[0])`
(qa.py line 188), on (score numerator, candidate) pairs: `s` may precede `t`
iff `-s.1 ≤ -t.1`, i.e. `t.1 ≤ s.1`.  Since every score is its dot-product
numerator divided by the same positive constant (see `scoreR` and lemma
`scoreR_le_scoreR_iff`), comparing the numerators is exactly comparing the
scores, and keeps the definition computable. -/
def simRel : ℚ × String → ℚ × String → Prop :=
  fun s t => t.1 ≤ s.1

instance : DecidableRel simRel :=
  fun s t => inferInstanceAs (Decidable (t.1 ≤ s.1))

instance : IsTotal (ℚ × String) simRel :=
  ⟨fun a b => le_total b.1 a.1⟩

instance : IsTrans (ℚ × String) simRel :=
  ⟨fun _ _ _ h1 h2 => le_trans h2 h1⟩

/-- `get_topn_similar` (qa.py lines 176-190).

The two degenerate branches model exceptions that the numpy pipeline raises:

* `inputs = []`: `encode([])` is an empty 1-D array of shape `(0,)`, and
  `np.matmul` of the `(1,d)` anchor with its transpose raises `ValueError`
  (core-dimension mismatch `d ≠ 0`);
* `inputs = [x]`: `cos_sim` returns a `(1,1)` matrix, `np.squeeze` of it is a
  0-d array, and `list(zip(...))` raises
  `TypeError: iteration over a 0-d array`.

For two or more candidates, `np.squeeze` yields the k-vector of scores, which
is zipped with `inputs` positionally (modelled by `map`), stably sorted on
descending score (Python's `sorted` is stable; `List.insertionSort` with the
reflexive-total `simRel` is the same stable sort), truncated to `n`, and the
candidate strings are extracted. -/
def get_topn_similar (emb : String → List ℚ) (anchor : String)
    (inputs : List String) (n : Nat) : Option (List String) :=
  match inputs with
  | [] => none
  | [_] => none
  | _ :: _ :: _ =>
    let similarities := inputs.map fun s => (dotQ (emb anchor) (emb s), s)
    some (((List.insertionSort simRel similarities).take n).map fun s => s.2)

/-! ### `generate` (qa.py lines 159-169) and the interactive loop -/

/-- The prompt assembled by `generate` (qa.py lines 160-163):
`knowledge` is prefixed with the knowledge marker only when nonempty, the
dialogue turns are joined with `" EOS "`, and the f-string
`f"{instruction} [CONTEXT] {dialog} {knowledge}"` concatenates the parts. -/
def buildPrompt (instruction knowledge : String) (dialog : List String) :
    String :=
  let k := if knowledge ≠ "" then "[KNOWLEDGE] " ++ knowledge else knowledge
  let d := String.intercalate " EOS " dialog
  instruction ++ " [CONTEXT] " ++ d ++ " " ++ k

/-- `generate` (qa.py lines 159-169) with the pretrained model's stochastic
decoding abstracted as `modelGen : String → String` applied to the prompt. -/
def generate (modelGen : String → String) (instruction knowledge : String)
    (dialog : List String) : String :=
  modelGen (buildPrompt instruction knowledge dialog)

/-- The `dialog` list after the queries `qs` have been entered, one per loop
iteration: the loop starts from `dialog = []` (qa.py line 222) and runs
`dialog.append(query)` each turn (line 229). -/
def dialogAfter (qs : List String) : List String :=
  qs.foldl (fun d q => d ++ [q]) []

/-- The history the loop passes to `generate` on the turn in which the last
element of `qs` was entered: `dialog[:500]` (qa.py line 245) — the *first*
500 entries. -/
def historyPassed (qs : List String) : List String :=
  (dialogAfter qs).take 500

/-- The spec's words, for comparison with `historyPassed`: "the history
passed to the generator contains exactly the most recent 500 turns in
original order" — the last 500 entries of the dialogue. -/
def specHistoryMostRecent (qs : List String) : List String :=
  qs.drop (qs.length - 500)

/-! ### Concrete fixtures used by counterexamples and witnesses -/

/-- A concrete embedding assignment exhibiting candidates whose dot-product
order differs from their cosine order: the anchor embeds to `[1, 0]`,
candidate `"b1"` to `[3, 4]` (dot 3, cosine 3/5), candidate `"b2"` to
`[1, 0]` (dot 1, cosine 1). -/
def embCX : String → List ℚ := fun s =>
  if s = "a" then [1, 0]
  else if s = "b1" then [3, 4]
  else if s = "b2" then [1, 0]
  else [1, 1]

/-- A concrete embedding assignment with two distinct candidates of equal
score: `"s1"` and `"s2"` both embed to `[2, 5]`. -/
def embW : String → List ℚ := fun s =>
  if s = "q" then [1, 0] else [2, 5]

/-- A claims-request responder whose single entity carries a single claim for
a single property, with `mainsnak.datavalue.value = v`. -/
def mkEntResp (ent prop : String) (v : JVal) : String → JVal := fun _ =>
  .jobj [("entities", .jobj [(ent, .jobj [("claims", .jobj [(prop,
    .jarr [.jobj [("mainsnak", .jobj [("datavalue",
      .jobj [("value", v)])])]])])])])]

/-- A labels-request responder returning an English label for every id. -/
def lblRespW : String → JVal := fun e =>
  .jobj [("entities", .jobj [(e, .jobj [("labels", .jobj [("en",
    .jobj [("value", .jstr
      (if e = "Q613726" then "yottagram"
       else if e = "Q30" then "United States of America"
       else "label-" ++ e))])])])])]

/-- A claims-request responder whose entities have an empty claims dict. -/
def entRespNoProp : String → JVal := fun e =>
  .jobj [("entities", .jobj [(e, .jobj [("claims", .jobj [])])])]

/-! ### Helper lemmas -/

theorem okBind {α β : Type} (a : α) (f : α → Except PyErr β) :
    (Except.ok a >>= f) = f a := rfl

theorem errBind {α β : Type} (e : PyErr) (f : α → Except PyErr β) :
    ((Except.error e : Except PyErr α) >>= f) = Except.error e := rfl

theorem foldl_append_eq (qs : List String) :
    ∀ acc, qs.foldl (fun d q => d ++ [q]) acc = acc ++ qs := by
  induction qs with
  | nil => intro acc; simp
  | cons q qs ih => intro acc; simp [List.foldl_cons, ih]

theorem dialogAfter_eq (qs : List String) : dialogAfter qs = qs := by
  simp [dialogAfter, foldl_append_eq]

theorem splitSlash_ne_nil (s : List Char) : splitSlash s ≠ [] := by
  cases s with
  | nil => simp [splitSlash]
  | cons c rest =>
    simp only [splitSlash]
    split
    · simp
    · split <;> simp

theorem splitSlash_no_slash (s : List Char) (h : '/' ∉ s) : splitSlash s = [s] := by
  induction s with
  | nil => rfl
  | cons c rest ih =>
    have hc : ¬c = '/' := fun hh => h (by simp [hh])
    have hr : '/' ∉ rest := fun hm => h (List.mem_cons_of_mem _ hm)
    simp only [splitSlash, if_neg hc, ih hr]

theorem getLastD_of_ne_nil {α : Type} (l : List α) (d d' : α) (h : l ≠ []) :
    l.getLastD d = l.getLastD d' := by
  cases l with
  | nil => exact absurd rfl h
  | cons a t => rfl

theorem getLastD_append_of_ne_nil {α : Type} (pre l : List α) (d : α)
    (h : l ≠ []) : (pre ++ l).getLastD d = l.getLastD d := by
  induction pre with
  | nil => rfl
  | cons p pre ih =>
    have hne : pre ++ l ≠ [] := by
      intro hh
      exact h (List.append_eq_nil.mp hh).2
    calc (p :: pre ++ l).getLastD d = (pre ++ l).getLastD p := by
          rw [List.cons_append, List.getLastD_cons]
      _ = (pre ++ l).getLastD d := getLastD_of_ne_nil _ _ _ hne
      _ = l.getLastD d := ih

theorem splitSlash_cons_slash (rest : List Char) :
    splitSlash ('/' :: rest) = [] :: splitSlash rest := by
  simp [splitSlash]

theorem splitSlash_cons_other (c : Char) (rest : List Char) (hc : ¬c = '/') :
    splitSlash (c :: rest) =
      match splitSlash rest with
      | [] => [[c]]
      | r :: rs => (c :: r) :: rs := by
  simp [splitSlash, hc]

theorem splitSlash_append_slash (xs ys : List Char) :
    ∃ pre, pre ≠ [] ∧ splitSlash (xs ++ '/' :: ys) = pre ++ splitSlash ys := by
  induction xs with
  | nil => exact ⟨[[]], by simp, by rw [List.nil_append, splitSlash_cons_slash]; rfl⟩
  | cons c xs ih =>
    obtain ⟨pre, hne, heq⟩ := ih
    by_cases hc : c = '/'
    · refine ⟨[] :: pre, by simp, ?_⟩
      subst hc
      rw [List.cons_append, splitSlash_cons_slash, heq, List.cons_append]
    · cases pre with
      | nil => exact absurd rfl hne
      | cons p pre' =>
        refine ⟨(c :: p) :: pre', by simp, ?_⟩
        rw [List.cons_append, splitSlash_cons_other c _ hc, heq]
        simp only [List.cons_append]

theorem lastSeg_append_slash (xs ys : List Char) :
    lastSeg (xs ++ '/' :: ys) = lastSeg ys := by
  obtain ⟨pre, hne, heq⟩ := splitSlash_append_slash xs ys
  rw [lastSeg, heq, getLastD_append_of_ne_nil _ _ _ (splitSlash_ne_nil ys), lastSeg]

theorem lastSeg_no_slash (s : List Char) (h : '/' ∉ s) : lastSeg s = s := by
  rw [lastSeg, splitSlash_no_slash s h]
  rfl

theorem strDataAppend (s t : String) : (s ++ t).data = s.data ++ t.data := by
  cases s; cases t; rfl

/-! ### Claim theorems -/

/-- Claim C1 (code bug).  The spec says the history passed to the generator
is the 500 *most recent* turns, but the loop passes `dialog[:500]`
(`historyPassed`), the 500 *oldest* turns.  With 501 turns — 500 turns of
`"a"` followed by one turn of `"b"` — the history passed to `generate` is the
500 copies of `"a"`, which omits the newest query `"b"` and differs from the
spec's most-recent-500 history (`specHistoryMostRecent`). -/
theorem historyPassed_drops_newest_turn :
    historyPassed (List.replicate 500 "a" ++ ["b"]) = List.replicate 500 "a" ∧
    historyPassed (List.replicate 500 "a" ++ ["b"]) ≠
      specHistoryMostRecent (List.replicate 500 "a" ++ ["b"]) := by
  have h1 : historyPassed (List.replicate 500 "a" ++ ["b"]) =
      List.replicate 500 "a" := by
    rw [historyPassed, dialogAfter_eq]
    have h := List.take_left (List.replicate 500 "a") ["b"]
    rw [List.length_replicate] at h
    exact h
  refine ⟨h1, ?_⟩
  have h2 : specHistoryMostRecent (List.replicate 500 "a" ++ ["b"]) =
      List.replicate 499 "a" ++ ["b"] := by
    rw [specHistoryMostRecent]
    have hlen : (List.replicate 500 "a" ++ ["b"]).length - 500 = 1 := by
      rw [List.length_append, List.length_replicate]
      rfl
    rw [hlen]
    have h500 : List.replicate 500 "a" = "a" :: List.replicate 499 "a" :=
      List.replicate_succ "a" 499
    rw [h500, List.cons_append]
    rfl
  rw [h1, h2]
  intro h
  have ha : (List.replicate 500 "a").getLast? = some "b" := by
    rw [h]
    exact List.getLast?_concat _
  have hrep : List.replicate 500 "a" = List.replicate 499 "a" ++ ["a"] := by
    have := List.replicate_succ' 499 "a"
    exact this
  rw [hrep, List.getLast?_concat] at ha
  exact absurd ha (by decide)

/-- Claim C9 (confirmed).  The prompt built by `generate` is the instruction,
the marker `"[CONTEXT]"`, the dialogue turns joined with `" EOS "`, and — iff
the knowledge string is nonempty — the marker `"[KNOWLEDGE] "` followed by
the knowledge text; with empty knowledge no knowledge marker is appended. -/
theorem buildPrompt_structure (i k : String) (d : List String) :
    (k ≠ "" → buildPrompt i k d =
      i ++ " [CONTEXT] " ++ String.intercalate " EOS " d ++ " " ++
        ("[KNOWLEDGE] " ++ k)) ∧
    (k = "" → buildPrompt i k d =
      i ++ " [CONTEXT] " ++ String.intercalate " EOS " d ++ " ") := by
  constructor
  · intro hk
    simp [buildPrompt, hk]
  · intro hk
    subst hk
    simp [buildPrompt]

/-- Witness for C9 at a concrete instruction, knowledge string and dialogue. -/
theorem buildPrompt_structure_w :
    buildPrompt "I" "K" ["x", "y"] =
      "I" ++ " [CONTEXT] " ++ String.intercalate " EOS " ["x", "y"] ++ " " ++
        ("[KNOWLEDGE] " ++ "K") :=
  (buildPrompt_structure "I" "K" ["x", "y"]).1 (by decide)

/-- Claim C6 (confirmed).  If the entity's claims dict has no key for the
requested property, the guarded navigation raises `KeyError`, which
`get_prop_value` catches and turns into the "not found" sentinel `None`
(`ok none`) — no exception escapes.  (All model functions are pure, so no
other state exists to be touched.) -/
theorem get_prop_value_missing_prop (entResp lblResp : String → JVal)
    (entity prop : String) (cs : List (String × JVal))
    (hc : claimsNav entResp entity = .ok (.jobj cs))
    (hp : lookupKey cs prop = none) :
    get_prop_value entResp lblResp entity prop = .ok none := by
  have hnav : firstClaimNav entResp entity prop = .error .keyError := by
    simp only [firstClaimNav, hc, okBind, JVal.index, hp, errBind]
  simp only [get_prop_value, hnav]

/-- Witness for C6: an entity with an empty claims dict and property
`"P2067"` yields the sentinel. -/
theorem get_prop_value_missing_prop_w :
    get_prop_value entRespNoProp lblRespW "Q193" "P2067" = .ok none :=
  get_prop_value_missing_prop entRespNoProp lblRespW "Q193" "P2067" [] rfl rfl

/-- Claim C7 (confirmed).  `get_label` normalizes its argument to the text
after the final `'/'`, so a bare identifier and any URI ending in
`"/" ++ identifier` (the identifier itself containing no slash) resolve to
the identical label. -/
theorem get_label_uri_bare_agree (lblResp : String → JVal) (pre q : String)
    (hq : '/' ∉ q.data) :
    get_label lblResp (pre ++ "/" ++ q) = get_label lblResp q := by
  have hdata : (pre ++ "/" ++ q).data = pre.data ++ '/' :: q.data := by
    rw [strDataAppend, strDataAppend, List.append_assoc]
    rfl
  have h1 : normEntity (pre ++ "/" ++ q) = q := by
    simp only [normEntity]
    rw [hdata, lastSeg_append_slash, lastSeg_no_slash _ hq]
  have h2 : normEntity q = q := by
    simp only [normEntity]
    rw [lastSeg_no_slash _ hq]
  simp only [get_label, h1, h2]

/-- Witness for C7: the full Wikidata URI of `Q613726` and the bare id
resolve to the same label. -/
theorem get_label_uri_bare_agree_w :
    get_label lblRespW ("http://www.wikidata.org/entity" ++ "/" ++ "Q613726") =
      get_label lblRespW "Q613726" :=
  get_label_uri_bare_agree lblRespW "http://www.wikidata.org/entity" "Q613726"
    (by decide)

/-- Claim C5 (confirmed).  When the first claim's value is id-shaped (a JSON
object with an `"id"` key holding an identifier string and none of the keys
that the earlier `amount`/`time` branches test for, nor a `"unit"` key — the
shape of a Wikidata entity reference), `get_prop_value` returns exactly what
`get_label` resolves the identifier to, and in particular never the raw
identifier string itself whenever the resolved label differs from it. -/
theorem get_prop_value_id_resolved (entResp lblResp : String → JVal)
    (entity prop : String) (claim dv : JVal) (kvs : List (String × JVal))
    (q : String)
    (hnav : firstClaimNav entResp entity prop = .ok claim)
    (hdv : claim.index "datavalue" = .ok dv)
    (hv : dv.index "value" = .ok (.jobj kvs))
    (ha : lookupKey kvs "amount" = none)
    (ht : lookupKey kvs "time" = none)
    (hid : lookupKey kvs "id" = some (.jstr q))
    (hu : lookupKey kvs "unit" = none) :
    get_prop_value entResp lblResp entity prop =
      (get_label lblResp q).map some ∧
    (∀ lbl : String, get_label lblResp q = .ok (.jstr lbl) → lbl ≠ q →
      get_prop_value entResp lblResp entity prop ≠ .ok (some (.jstr q))) := by
  have hres : resolveValue lblResp (.jobj kvs) = get_label lblResp q := by
    simp only [resolveValue, JVal.hasKeyOrSub, ha, ht, hid, Option.isSome_none,
      Option.isSome_some, JVal.index, asStr]
  have hunit : ∀ value : JVal,
      unitSuffix lblResp (.jobj kvs) value = .ok (some value) := by
    intro value
    simp only [unitSuffix, JVal.index, hu, Except.bind]
  have hmain : get_prop_value entResp lblResp entity prop =
      (get_label lblResp q).map some := by
    simp only [get_prop_value, hnav, hdv, hv, hres]
    cases hgl : get_label lblResp q with
    | error e => rfl
    | ok value => exact hunit value
  refine ⟨hmain, ?_⟩
  intro lbl hlbl hne contra
  rw [hmain, hlbl] at contra
  simp only [Except.map] at contra
  injection contra with h1
  injection h1 with h2
  injection h2 with h3
  exact hne h3

/-- Witness for C5 at a concrete entity whose claim value is the entity
reference `Q30`. -/
theorem get_prop_value_id_resolved_w :
    get_prop_value (mkEntResp "Q1" "P1" (.jobj [("id", .jstr "Q30")])) lblRespW
      "Q1" "P1" = (get_label lblRespW "Q30").map some :=
  (get_prop_value_id_resolved
    (mkEntResp "Q1" "P1" (.jobj [("id", .jstr "Q30")])) lblRespW "Q1" "P1"
    (.jobj [("datavalue", .jobj [("value", .jobj [("id", .jstr "Q30")])])])
    (.jobj [("value", .jobj [("id", .jstr "Q30")])])
    [("id", .jstr "Q30")] "Q30" rfl rfl rfl rfl rfl rfl rfl).1

/-- Claim C8 (confirmed).  For a first claim whose value is a JSON object:
an amount-shaped value is returned with every leading `'+'` stripped; with a
unit present, the unit's resolved label is appended after a single space; a
time-shaped value is returned as its time string; an id-shaped value is
returned as whatever label `get_label` resolves the id to. -/
theorem get_prop_value_value_shapes (entResp lblResp : String → JVal)
    (entity prop : String) (claim dv : JVal) (kvs : List (String × JVal))
    (hnav : firstClaimNav entResp entity prop = .ok claim)
    (hdv : claim.index "datavalue" = .ok dv)
    (hv : dv.index "value" = .ok (.jobj kvs)) :
    (∀ a : String, lookupKey kvs "amount" = some (.jstr a) →
      lookupKey kvs "unit" = none →
      get_prop_value entResp lblResp entity prop =
        .ok (some (.jstr (String.mk (a.data.dropWhile fun c => c = '+'))))) ∧
    (∀ a u ul : String, lookupKey kvs "amount" = some (.jstr a) →
      lookupKey kvs "unit" = some (.jstr u) →
      get_label lblResp u = .ok (.jstr ul) →
      get_prop_value entResp lblResp entity prop =
        .ok (some (.jstr
          (String.mk (a.data.dropWhile fun c => c = '+') ++ " " ++ ul)))) ∧
    (∀ t : String, lookupKey kvs "amount" = none →
      lookupKey kvs "time" = some (.jstr t) →
      lookupKey kvs "unit" = none →
      get_prop_value entResp lblResp entity prop = .ok (some (.jstr t))) ∧
    (∀ q : String, ∀ lblv : JVal, lookupKey kvs "amount" = none →
      lookupKey kvs "time" = none →
      lookupKey kvs "id" = some (.jstr q) →
      lookupKey kvs "unit" = none →
      get_label lblResp q = .ok lblv →
      get_prop_value entResp lblResp entity prop = .ok (some lblv)) := by
  have hgpv : get_prop_value entResp lblResp entity prop =
      match resolveValue lblResp (.jobj kvs) with
      | .error e => .error e
      | .ok value => unitSuffix lblResp (.jobj kvs) value := by
    simp only [get_prop_value, hnav, hdv, hv]
  have hnou : ∀ value : JVal, lookupKey kvs "unit" = none →
      unitSuffix lblResp (.jobj kvs) value = .ok (some value) := by
    intro value hu
    simp only [unitSuffix, JVal.index, hu, Except.bind]
  refine ⟨?_, ?_, ?_, ?_⟩
  · intro a hamt hu
    have hres : resolveValue lblResp (.jobj kvs) =
        .ok (.jstr (String.mk (a.data.dropWhile fun c => c = '+'))) := by
      simp only [resolveValue, JVal.hasKeyOrSub, hamt, Option.isSome_some,
        JVal.index, lstripPlus]
    rw [hgpv, hres]
    exact hnou _ hu
  · intro a u ul hamt hu hlbl
    have hres : resolveValue lblResp (.jobj kvs) =
        .ok (.jstr (String.mk (a.data.dropWhile fun c => c = '+'))) := by
      simp only [resolveValue, JVal.hasKeyOrSub, hamt, Option.isSome_some,
        JVal.index, lstripPlus]
    rw [hgpv, hres]
    simp only [unitSuffix, JVal.index, hu, asStr, Except.bind, hlbl]
  · intro t hamt htime hu
    have hres : resolveValue lblResp (.jobj kvs) = .ok (.jstr t) := by
      simp only [resolveValue, JVal.hasKeyOrSub, hamt, htime, Option.isSome_none,
        Option.isSome_some, JVal.index]
    rw [hgpv, hres]
    exact hnou _ hu
  · intro q lblv hamt htime hid hu hlbl
    have hres : resolveValue lblResp (.jobj kvs) = get_label lblResp q := by
      simp only [resolveValue, JVal.hasKeyOrSub, hamt, htime, hid,
        Option.isSome_none, Option.isSome_some, JVal.index, asStr]
    rw [hgpv, hres, hlbl]
    exact hnou _ hu

/-- Witness for C8 at the docstring's scenario: the mass of Saturn,
`"+568360"` yottagram — the leading `'+'` is stripped and the unit label is
appended after one space. -/
theorem get_prop_value_value_shapes_w :
    get_prop_value (mkEntResp "Q193" "P2067" (.jobj
      [("amount", .jstr "+568360"),
       ("unit", .jstr "http://www.wikidata.org/entity/Q613726")])) lblRespW
      "Q193" "P2067" = .ok (some (.jstr "568360 yottagram")) :=
  (get_prop_value_value_shapes
    (mkEntResp "Q193" "P2067" (.jobj
      [("amount", .jstr "+568360"),
       ("unit", .jstr "http://www.wikidata.org/entity/Q613726")])) lblRespW
    "Q193" "P2067"
    (.jobj [("datavalue", .jobj [("value", .jobj
      [("amount", .jstr "+568360"),
       ("unit", .jstr "http://www.wikidata.org/entity/Q613726")])])])
    (.jobj [("value", .jobj
      [("amount", .jstr "+568360"),
       ("unit", .jstr "http://www.wikidata.org/entity/Q613726")])])
    [("amount", .jstr "+568360"),
     ("unit", .jstr "http://www.wikidata.org/entity/Q613726")]
    rfl rfl rfl).2.1 "+568360" "http://www.wikidata.org/entity/Q613726"
    "yottagram" rfl rfl rfl

/-- Claim C10 counterexample.  The claim says a first claim value that is
neither amount- nor time- nor id-shaped is returned unchanged; but when that
value is the plain string `"abc"`, the fall-through branch keeps the bare
string and the unit step `value["unit"]` subscripts a string with a string
key, raising an uncaught `TypeError` — nothing is returned. -/
theorem get_prop_value_rawstring_raises :
    get_prop_value (mkEntResp "Q1" "P1" (.jstr "abc")) lblRespW "Q1" "P1" =
      .error .typeError := rfl

/-- Claim C10 (amended).  A fall-through first-claim value is returned
unchanged when it is a JSON object carrying none of the dispatch keys
`"amount"`/`"time"`/`"id"` and no `"unit"` key; but a fall-through value that
is a plain string (one not containing `"amount"`, `"time"` or `"id"` as a
substring, which would divert it into those branches) makes `get_prop_value`
raise `TypeError` at the `value["unit"]` subscript instead of returning. -/
theorem get_prop_value_fallthrough (entResp lblResp : String → JVal)
    (entity prop : String) (claim dv : JVal)
    (hnav : firstClaimNav entResp entity prop = .ok claim)
    (hdv : claim.index "datavalue" = .ok dv) :
    (∀ kvs : List (String × JVal), dv.index "value" = .ok (.jobj kvs) →
      lookupKey kvs "amount" = none → lookupKey kvs "time" = none →
      lookupKey kvs "id" = none → lookupKey kvs "unit" = none →
      get_prop_value entResp lblResp entity prop = .ok (some (.jobj kvs))) ∧
    (∀ s : String, dv.index "value" = .ok (.jstr s) →
      strContains s "amount" = false → strContains s "time" = false →
      strContains s "id" = false →
      get_prop_value entResp lblResp entity prop = .error .typeError) := by
  constructor
  · intro kvs hv hamt htime hid hu
    have hres : resolveValue lblResp (.jobj kvs) = .ok (.jobj kvs) := by
      simp only [resolveValue, JVal.hasKeyOrSub, hamt, htime, hid,
        Option.isSome_none]
    have hunit : unitSuffix lblResp (.jobj kvs) (.jobj kvs) =
        .ok (some (.jobj kvs)) := by
      simp only [unitSuffix, JVal.index, hu, Except.bind]
    simp only [get_prop_value, hnav, hdv, hv, hres, hunit]
  · intro s hv hamt htime hid
    have hres : resolveValue lblResp (.jstr s) = .ok (.jstr s) := by
      simp only [resolveValue, JVal.hasKeyOrSub, hamt, htime, hid]
    have hunit : unitSuffix lblResp (.jstr s) (.jstr s) = .error .typeError := by
      simp only [unitSuffix, JVal.index, Except.bind]
    simp only [get_prop_value, hnav, hdv, hv, hres, hunit]

/-- Witness for the amended C10: a globe-coordinate-like mapping value passes
through unchanged. -/
theorem get_prop_value_fallthrough_w :
    get_prop_value (mkEntResp "Q1" "P1" (.jobj [("latitude", .jnum 5)]))
      lblRespW "Q1" "P1" = .ok (some (.jobj [("latitude", .jnum 5)])) :=
  (get_prop_value_fallthrough
    (mkEntResp "Q1" "P1" (.jobj [("latitude", .jnum 5)])) lblRespW "Q1" "P1"
    (.jobj [("datavalue", .jobj [("value", .jobj [("latitude", .jnum 5)])])])
    (.jobj [("value", .jobj [("latitude", .jnum 5)])])
    rfl rfl).1 [("latitude", .jnum 5)] rfl rfl rfl rfl rfl

theorem topn_eq_of_two (emb : String → List ℚ) (anchor : String)
    {inputs : List String} (h2 : 2 ≤ inputs.length) (n : Nat) :
    get_topn_similar emb anchor inputs n =
      some (((List.insertionSort simRel
        (inputs.map fun s => (dotQ (emb anchor) (emb s), s))).take n).map
          fun s => s.2) := by
  cases inputs with
  | nil => simp at h2
  | cons a rest =>
    cases rest with
    | nil => simp at h2
    | cons b t => rfl

/-- All the computed float scores share one positive denominator, so
comparing two scores is exactly comparing their dot-product numerators. -/
theorem scoreR_le_scoreR_iff (emb : String → List ℚ) (anchor : String)
    (inputs : List String) (x y : String)
    (ha : 0 < normSq (emb anchor)) (hb : 0 < frobSq (inputs.map emb)) :
    (scoreR emb anchor inputs x ≤ scoreR emb anchor inputs y ↔
      dotQ (emb anchor) (emb x) ≤ dotQ (emb anchor) (emb y)) := by
  have hden : (0 : ℝ) < normR (emb anchor) *
      Real.sqrt ((frobSq (inputs.map emb) : ℚ) : ℝ) := by
    apply mul_pos
    · simp only [normR]
      exact Real.sqrt_pos.mpr (by exact_mod_cast ha)
    · exact Real.sqrt_pos.mpr (by exact_mod_cast hb)
  simp only [scoreR]
  rw [div_le_div_iff_of_pos_right hden]
  exact Rat.cast_le

theorem topn_perm_sorted_dot (emb : String → List ℚ) (anchor : String)
    {inputs : List String} (h2 : 2 ≤ inputs.length) {n : Nat}
    (hn : inputs.length ≤ n) :
    ∃ out, get_topn_similar emb anchor inputs n = some out ∧
      out.Perm inputs ∧
      out.Pairwise (fun x y =>
        dotQ (emb anchor) (emb y) ≤ dotQ (emb anchor) (emb x)) := by
  rw [topn_eq_of_two emb anchor h2 n]
  set f : String → ℚ × String := fun s => (dotQ (emb anchor) (emb s), s) with hf
  set sorted := List.insertionSort simRel (inputs.map f) with hsorted
  have hperm : sorted.Perm (inputs.map f) := List.perm_insertionSort _ _
  have hlen : sorted.length = inputs.length := by
    rw [hperm.length_eq, List.length_map]
  have htake : sorted.take n = sorted := List.take_of_length_le (by omega)
  refine ⟨sorted.map fun s => s.2, by rw [htake], ?_, ?_⟩
  · have hmapped := hperm.map fun s : ℚ × String => s.2
    have hmm : (inputs.map f).map (fun s : ℚ × String => s.2) = inputs := by
      rw [List.map_map]
      have hcomp : ((fun s : ℚ × String => s.2) ∘ f) = fun s => s := by
        rw [hf]
        rfl
      rw [hcomp, List.map_id']
    rwa [hmm] at hmapped
  · have hsortedp : sorted.Pairwise simRel :=
      List.sorted_insertionSort simRel (inputs.map f)
    have hmem : ∀ p ∈ sorted, p.1 = dotQ (emb anchor) (emb p.2) := by
      intro p hp
      have hpm : p ∈ inputs.map f := hperm.mem_iff.mp hp
      obtain ⟨s, _, rfl⟩ := List.mem_map.mp hpm
      rfl
    have hpair : sorted.Pairwise (fun p q : ℚ × String =>
        dotQ (emb anchor) (emb q.2) ≤ dotQ (emb anchor) (emb p.2)) := by
      refine hsortedp.imp_of_mem ?_
      intro p q hp hq hr
      rw [← hmem p hp, ← hmem q hq]
      exact hr
    exact List.pairwise_map.mpr hpair

/-- Claim C2 (amended).  With at least two candidates and N equal to the
candidate count, `get_topn_similar` returns a permutation of the input — no
candidate dropped or duplicated — ordered by non-increasing value of the
*computed* similarity score (`scoreR`): each dot product divided by the one
shared positive denominator `‖anchor‖ · ‖candidate matrix‖_F`.  This is
dot-product order, which agrees with cosine order only when the candidate
embeddings all have the same norm (see the counterexample
`get_topn_similar_not_cosine_order`). -/
theorem get_topn_similar_ranking (emb : String → List ℚ) (anchor : String)
    (inputs : List String) (n : Nat) (h2 : 2 ≤ inputs.length)
    (hn : n = inputs.length)
    (ha : 0 < normSq (emb anchor)) (hb : 0 < frobSq (inputs.map emb)) :
    ∃ out, get_topn_similar emb anchor inputs n = some out ∧
      out.Perm inputs ∧
      out.Pairwise (fun x y =>
        scoreR emb anchor inputs y ≤ scoreR emb anchor inputs x) := by
  obtain ⟨out, h1, hp, h3⟩ :=
    topn_perm_sorted_dot emb anchor h2 (le_of_eq hn.symm)
  refine ⟨out, h1, hp, ?_⟩
  refine h3.imp ?_
  intro x y hxy
  exact (scoreR_le_scoreR_iff emb anchor inputs y x ha hb).mpr hxy

/-- Witness for the amended C2 at a concrete embedding and candidate list. -/
theorem get_topn_similar_ranking_w :
    ∃ out, get_topn_similar embCX "a" ["b1", "b2"] 2 = some out ∧
      out.Perm ["b1", "b2"] ∧
      out.Pairwise (fun x y =>
        scoreR embCX "a" ["b1", "b2"] y ≤ scoreR embCX "a" ["b1", "b2"] x) :=
  get_topn_similar_ranking embCX "a" ["b1", "b2"] 2 (by decide) rfl
    (by rw [show embCX "a" = [1, 0] from rfl]
        norm_num [normSq, dotQ])
    (by simp only [List.map_cons, List.map_nil]
        rw [show embCX "b1" = [3, 4] from rfl, show embCX "b2" = [1, 0] from rfl]
        norm_num [frobSq, normSq, dotQ])

/-- Counterexample to C2 as stated: at the embedding `embCX` the ranker
returns `["b1", "b2"]` (dot products 3 and 1), yet the cosine similarity of
`"b2"`'s embedding to the anchor's (namely 1) strictly exceeds that of
`"b1"`'s (namely 3/5), so the output is *not* ordered by non-increasing
cosine similarity of the candidates' embeddings to the anchor's. -/
theorem get_topn_similar_not_cosine_order :
    get_topn_similar embCX "a" ["b1", "b2"] 2 = some ["b1", "b2"] ∧
    cos_sim (embCX "a") (embCX "b1") < cos_sim (embCX "a") (embCX "b2") := by
  have ea : embCX "a" = [1, 0] := rfl
  have eb1 : embCX "b1" = [3, 4] := rfl
  have eb2 : embCX "b2" = [1, 0] := rfl
  have hd1 : dotQ (embCX "a") (embCX "b1") = 3 := by
    rw [ea, eb1]
    norm_num [dotQ]
  have hd2 : dotQ (embCX "a") (embCX "b2") = 1 := by
    rw [ea, eb2]
    norm_num [dotQ]
  constructor
  · rw [topn_eq_of_two embCX "a" (by decide) 2]
    have hmap : (["b1", "b2"] : List String).map
        (fun s => (dotQ (embCX "a") (embCX s), s)) = [(3, "b1"), (1, "b2")] := by
      simp only [List.map_cons, List.map_nil]
      rw [hd1, hd2]
    rw [hmap]
    have hsort : List.insertionSort simRel [((3 : ℚ), "b1"), (1, "b2")] =
        [(3, "b1"), (1, "b2")] := by
      simp only [List.insertionSort, List.orderedInsert]
      rw [if_pos]
      show ((1 : ℚ), "b2").1 ≤ ((3 : ℚ), "b1").1
      norm_num
    rw [hsort]
    rfl
  · have hn1 : normSq (embCX "a") = 1 := by
      rw [ea]
      norm_num [normSq, dotQ]
    have hn2 : normSq (embCX "b1") = 25 := by
      rw [eb1]
      norm_num [normSq, dotQ]
    have hn3 : normSq (embCX "b2") = 1 := by
      rw [eb2]
      norm_num [normSq, dotQ]
    have hna : normR (embCX "a") = 1 := by
      simp only [normR, hn1, Rat.cast_one, Real.sqrt_one]
    have hnb1 : normR (embCX "b1") = 5 := by
      simp only [normR, hn2]
      rw [show ((25 : ℚ) : ℝ) = 5 ^ 2 by norm_num]
      exact Real.sqrt_sq (by norm_num)
    have hnb2 : normR (embCX "b2") = 1 := by
      simp only [normR, hn3, Rat.cast_one, Real.sqrt_one]
    simp only [cos_sim, hna, hnb1, hnb2, hd1, hd2]
    norm_num

/-- Claim C3 (confirmed).  When two candidates have exactly equal computed
similarity scores, the one earlier in the input sequence appears earlier in
the ranked output: `[x, y]` stays a sublist of the result.  Python's `sorted`
is stable, and so is the model's insertion sort. -/
theorem get_topn_similar_stable_ties (emb : String → List ℚ) (anchor : String)
    (l₁ l₂ l₃ : List String) (x y : String)
    (ha : 0 < normSq (emb anchor))
    (hb : 0 < frobSq ((l₁ ++ x :: l₂ ++ y :: l₃).map emb))
    (htie : scoreR emb anchor (l₁ ++ x :: l₂ ++ y :: l₃) x =
      scoreR emb anchor (l₁ ++ x :: l₂ ++ y :: l₃) y) :
    ∃ out, get_topn_similar emb anchor (l₁ ++ x :: l₂ ++ y :: l₃)
        (l₁ ++ x :: l₂ ++ y :: l₃).length = some out ∧
      [x, y].Sublist out := by
  set inputs := l₁ ++ x :: l₂ ++ y :: l₃ with hinputs
  have h2 : 2 ≤ inputs.length := by
    rw [hinputs]
    simp only [List.length_append, List.length_cons]
    omega
  have hdot : dotQ (emb anchor) (emb x) = dotQ (emb anchor) (emb y) := by
    have h1 := (scoreR_le_scoreR_iff emb anchor inputs x y ha hb).mp
      (le_of_eq htie)
    have hr := (scoreR_le_scoreR_iff emb anchor inputs y x ha hb).mp
      (le_of_eq htie.symm)
    exact le_antisymm h1 hr
  rw [topn_eq_of_two emb anchor h2 inputs.length]
  set f : String → ℚ × String := fun s => (dotQ (emb anchor) (emb s), s) with hf
  set sorted := List.insertionSort simRel (inputs.map f) with hsorted
  have hlen : sorted.length = inputs.length := by
    rw [hsorted, (List.perm_insertionSort _ _).length_eq, List.length_map]
  have htake : sorted.take inputs.length = sorted :=
    List.take_of_length_le (le_of_eq hlen)
  refine ⟨sorted.map fun s => s.2, by rw [htake], ?_⟩
  have hsubin : [x, y].Sublist inputs := by
    rw [hinputs]
    have hx : [x].Sublist (l₁ ++ (x :: l₂)) :=
      List.Sublist.trans (by simp) (List.sublist_append_right l₁ (x :: l₂))
    have hy : [y].Sublist (y :: l₃) := by simp
    exact List.Sublist.append hx hy
  have hsubf : [f x, f y].Sublist (inputs.map f) := by
    have hm := List.Sublist.map f hsubin
    simpa using hm
  have hpairsub : [f x, f y].Sublist sorted := by
    rw [hsorted]
    apply List.pair_sublist_insertionSort
    · show dotQ (emb anchor) (emb y) ≤ dotQ (emb anchor) (emb x)
      exact le_of_eq hdot.symm
    · exact hsubf
  have hmapped := List.Sublist.map (fun s : ℚ × String => s.2) hpairsub
  simpa using hmapped

/-- Witness for C3: two distinct candidates with identical embeddings (hence
exactly equal computed scores) keep their input order in the output. -/
theorem get_topn_similar_stable_ties_w :
    ∃ out, get_topn_similar embW "q" ([] ++ "s1" :: [] ++ "s2" :: [])
        ([] ++ "s1" :: [] ++ "s2" :: []).length = some out ∧
      ["s1", "s2"].Sublist out :=
  get_topn_similar_stable_ties embW "q" [] [] [] "s1" "s2"
    (by rw [show embW "q" = [1, 0] from rfl]
        norm_num [normSq, dotQ])
    (by show 0 < frobSq ((["s1", "s2"] : List String).map embW)
        simp only [List.map_cons, List.map_nil]
        rw [show embW "s1" = [2, 5] from rfl, show embW "s2" = [2, 5] from rfl]
        norm_num [frobSq, normSq, dotQ])
    rfl

/-- Claim C4 (amended).  For at least two candidates: N = 0 returns the empty
sequence, and N at least the candidate count returns all candidates in ranked
order (the same output as N = count, and a permutation of the input).  With
an empty candidate list or with exactly one candidate the function raises
inside the numpy pipeline instead of returning (see
`get_topn_similar_small_lists_raise`). -/
theorem get_topn_similar_bounds (emb : String → List ℚ) (anchor x : String)
    (inputs : List String) (n : Nat) (h2 : 2 ≤ inputs.length) :
    get_topn_similar emb anchor [] n = none ∧
    get_topn_similar emb anchor [x] n = none ∧
    get_topn_similar emb anchor inputs 0 = some [] ∧
    (inputs.length ≤ n →
      get_topn_similar emb anchor inputs n =
        get_topn_similar emb anchor inputs inputs.length ∧
      ∃ out, get_topn_similar emb anchor inputs n = some out ∧
        out.Perm inputs) := by
  refine ⟨rfl, rfl, ?_, ?_⟩
  · rw [topn_eq_of_two emb anchor h2 0]
    rfl
  · intro hn
    constructor
    · rw [topn_eq_of_two emb anchor h2 n,
        topn_eq_of_two emb anchor h2 inputs.length]
      set sorted := List.insertionSort simRel
        (inputs.map fun s => (dotQ (emb anchor) (emb s), s)) with hsorted
      have hlen : sorted.length = inputs.length := by
        rw [hsorted, (List.perm_insertionSort _ _).length_eq, List.length_map]
      rw [List.take_of_length_le (show sorted.length ≤ n from by omega),
        List.take_of_length_le (le_of_eq hlen)]
    · obtain ⟨out, h1, hp, _⟩ := topn_perm_sorted_dot emb anchor h2 hn
      exact ⟨out, h1, hp⟩

/-- Witness for the amended C4: with two candidates, N = 5 > 2 returns the
same full ranked list as N = 2, a permutation of the input. -/
theorem get_topn_similar_bounds_w :
    get_topn_similar embCX "a" ["b1", "b2"] 5 =
      get_topn_similar embCX "a" ["b1", "b2"]
        (["b1", "b2"] : List String).length ∧
    ∃ out, get_topn_similar embCX "a" ["b1", "b2"] 5 = some out ∧
      out.Perm ["b1", "b2"] :=
  (get_topn_similar_bounds embCX "a" "b1" ["b1", "b2"] 5 (by decide)).2.2.2
    (by decide)

/-- Counterexample to C4 as stated: with exactly one candidate (claimed to be
defined and to return that candidate) and with the empty candidate list
(claimed to return the empty sequence), the modelled numpy pipeline raises —
`np.squeeze` of the 1×1 score matrix is 0-d and `zip` raises `TypeError`;
`encode([])` has shape (0,) and `matmul` raises `ValueError` — so
`get_topn_similar` produces no result at all. -/
theorem get_topn_similar_small_lists_raise :
    get_topn_similar embCX "a" ["b1"] 1 = none ∧
    get_topn_similar embCX "a" [] 0 = none :=
  ⟨rfl, rfl⟩
